import Mathlib

/-!
Shallow embedding of the task distribution and trust-adjustment core of
`poc/golemPy/golem/task/TaskServer.py` (class `TaskServer` and class
`WaitingTaskResult`), together with theorems settling the specification
claims about it.  Python dictionaries are embedded as association lists
over `String` keys, Python float quantities (wall-clock instants, ttl values, trust
values) as integers, which carry all of the ordered arithmetic the
claims use, and
calls to external collaborators (`client`, `taskComputer`) as emitted
events.  Python exceptions are embedded as an `err` field of an
`Outcome` record: state mutations performed before the raise are kept,
those after it are not.
-/

namespace Golem

variable {α : Type}

/-- Dictionary lookup: `d[k]` / `k in d`, embedded on association lists
(first matching key wins; Python dictionaries never hold a key twice). -/
def alookup (k : String) : List (String × α) → Option α
  | [] => none
  | (k', v) :: rest => if k' = k then some v else alookup k rest

/-- Dictionary assignment `d[k] = v`: replace the first binding of `k`,
or append a fresh binding when `k` is absent. -/
def aset (k : String) (v : α) : List (String × α) → List (String × α)
  | [] => [(k, v)]
  | (k', v') :: rest => if k' = k then (k, v) :: rest else (k', v') :: aset k v rest

/-- Dictionary deletion `del d[k]`. -/
def aerase (k : String) : List (String × α) → List (String × α)
  | [] => []
  | (k', v') :: rest => if k' = k then aerase k rest else (k', v') :: aerase k rest

/-- `list.remove(x)`: drop the first occurrence of `x`, if any. -/
def removeFirst (x : String) : List String → List String
  | [] => []
  | y :: rest => if y = x then rest else y :: removeFirst x rest

/-- The key list of an association list. -/
def keys (l : List (String × α)) : List String := l.map Prod.fst

/-- Modelled from the spec: the `TaskHeader` class lives in `TaskBase.py`,
which is not among the provided sources.  The spec lists its fields as
task_id, owner (client) id, owner address/port, environment, ttl,
last_checked and subtask_timeout; `TaskServer.addTaskHeader` constructs one
as `TaskHeader(clientId, id, address, port, environment, ttl,
subtaskTimeout)`, and the constructor stamps `lastChecking` with the
creation time. -/
structure TaskHeader where
  clientId : String
  taskId : String
  taskOwnerAddress : String
  taskOwnerPort : Nat
  environment : String
  ttl : ℤ
  subtaskTimeout : ℤ
  lastChecking : ℤ
deriving DecidableEq

/-- One value of `TaskServer.activeTasks`: the Python dict
`{'header': theader, 'requests': n}` built in `TaskServer.requestTask`. -/
structure ActiveTaskEntry where
  header : TaskHeader
  requests : Int
deriving DecidableEq

/-- The `WaitingTaskResult` class at the bottom of TaskServer.py.  The
opaque result payload is kept as a string. -/
structure WaitingTaskResult where
  subtaskId : String
  result : String
  resultType : Nat
  lastSendingTrial : ℤ
  delayTime : ℤ
  ownerAddress : String
  ownerPort : Nat
  alreadySending : Bool
deriving DecidableEq

/-- The mutable fields of a `TaskServer` that the claims are about, as
initialised in `TaskServer.__init__`.  `ownTasks` stands for the key set
of `self.taskManager.tasks` (the task manager is an external
collaborator; only membership of a task id in it is consulted, by
`addTaskHeader`).  `maxResultsSendingDelay` is the configuration value
`self.configDesc.maxResultsSendingDelay`. -/
structure ServerState where
  taskHeaders : List (String × TaskHeader)
  supportedTasks : List String
  removedTasks : List (String × ℤ)
  activeTasks : List (String × ActiveTaskEntry)
  waitingForVerification : List (String × String)
  resultsToSend : List (String × WaitingTaskResult)
  ownTasks : List String
  removedTaskTimeout : ℤ
  maxTrust : ℤ
  minTrust : ℤ
  maxResultsSendingDelay : ℤ
deriving DecidableEq

/-- Calls made to external collaborators (`self.client`,
`self.taskComputer`) during an operation, in call order. -/
inductive Event
  | taskRequestRejected (taskId : String) (reason : String)
  | getReward (amount : Int)
  | wrongRewardLogged (subtaskId : String)
  | incRequesterTrust (nodeId : Option String) (delta : ℤ)
  | decRequesterTrust (nodeId : Option String) (delta : ℤ)
  | incComputingTrust (nodeId : String) (delta : ℤ)
  | decComputingTrust (nodeId : String) (delta : ℤ)
  | attemptResultSend (subtaskId : String)
deriving DecidableEq

/-- Python exceptions that the embedded operations can raise. -/
inductive PyError
  | attributeError
  | assertionError
deriving DecidableEq

/-- Result of running one embedded operation: the state after it, the
external calls it made, and the exception it raised, if any (state
changes and events that precede the raise are retained, later ones are
not, matching Python exception semantics). -/
structure Outcome where
  state : ServerState
  events : List Event
  err : Option PyError
deriving DecidableEq

/-- Sequencing: run `f` on the resulting state unless an exception is
already propagating. -/
def Outcome.thenDo (o : Outcome) (f : ServerState → Outcome) : Outcome :=
  match o.err with
  | some _ => o
  | none =>
    let o2 := f o.state
    { state := o2.state, events := o.events ++ o2.events, err := o2.err }

/-- `TaskServer.removeTaskHeader` (lines 148-155): delete the header and
the supported-task entry, record the removal time, and delete the active
entry only when its request counter is already ≤ 0. -/
def removeTaskHeader (s : ServerState) (now : ℤ) (taskId : String) : ServerState :=
  let active :=
    match alookup taskId s.activeTasks with
    | some e => if e.requests ≤ 0 then aerase taskId s.activeTasks else s.activeTasks
    | none => s.activeTasks
  { s with
      taskHeaders := aerase taskId s.taskHeaders
      supportedTasks := removeFirst taskId s.supportedTasks
      removedTasks := aset taskId now s.removedTasks
      activeTasks := active }

/-- The incoming header dictionary `thDictRepr` of
`TaskServer.addTaskHeader`, with all keys the method reads present
(a dictionary missing a key makes the method return false without
mutating anything; the claims are about complete dictionaries).
`supported` records the verdict of the external capability filter
`self.client.supportedTask(thDictRepr)`. -/
structure THDict where
  id : String
  clientId : String
  address : String
  port : Nat
  environment : String
  ttl : ℤ
  subtaskTimeout : ℤ
  supported : Bool
deriving DecidableEq

/-- `TaskServer.addTaskHeader` (lines 132-145): skip the insert when the
task id is already known, is one of the node's own tasks, or was removed
recently; in every case the method reaches `return True`. -/
def addTaskHeader (s : ServerState) (now : ℤ) (d : THDict) : Bool × ServerState :=
  if (alookup d.id s.taskHeaders).isSome then (true, s)
  else if d.id ∈ s.ownTasks then (true, s)
  else if (alookup d.id s.removedTasks).isSome then (true, s)
  else
    let h : TaskHeader :=
      { clientId := d.clientId, taskId := d.id, taskOwnerAddress := d.address,
        taskOwnerPort := d.port, environment := d.environment, ttl := d.ttl,
        subtaskTimeout := d.subtaskTimeout, lastChecking := now }
    let s1 := { s with taskHeaders := aset d.id h s.taskHeaders }
    (true, if d.supported then { s1 with supportedTasks := s1.supportedTasks ++ [d.id] } else s1)

/-- One iteration of the first loop of `TaskServer.__removeOldTasks`
(lines 426-432), for the header stored under `id`: decrement its ttl by
the time elapsed since its last check, stamp the check time, and call
`removeTaskHeader` when the new ttl is ≤ 0. -/
def expireStep (now : ℤ) (s : ServerState) (id : String) : ServerState :=
  match alookup id s.taskHeaders with
  | none => s
  | some t =>
    let t' : TaskHeader := { t with ttl := t.ttl - (now - t.lastChecking), lastChecking := now }
    let s1 := { s with taskHeaders := aset id t' s.taskHeaders }
    if t'.ttl ≤ 0 then removeTaskHeader s1 now id else s1

/-- `TaskServer.__removeOldTasks` (lines 425-439): age every known
header (removing the expired ones), then purge removal records older
than `removedTaskTimeout`.  The per-iteration `time.time()` calls are
embedded as the single instant `now`. -/
def removeOldTasks (s : ServerState) (now : ℤ) : ServerState :=
  let s1 := (keys s.taskHeaders).foldl (expireStep now) s
  { s1 with
      removedTasks := s1.removedTasks.filter (fun p => decide (now - p.2 ≤ s1.removedTaskTimeout)) }

/-- `TaskServer.sendResults` (lines 92-102).  The Python result dict's
`data` and `resultType` entries arrive as `Option`s (`none` = key
missing, which trips the first `assert False`); a subtask id already
queued trips the second `assert False`.  Otherwise a fresh
`WaitingTaskResult` is queued with zeroed send bookkeeping. -/
def sendResults (s : ServerState) (subtaskId : String) (rData : Option String)
    (rType : Option Nat) (ownerAddress : String) (ownerPort : Nat) :
    Except PyError (Bool × ServerState) :=
  match rData, rType with
  | some dat, some rt =>
    if (alookup subtaskId s.resultsToSend).isSome then .error .assertionError
    else
      let w : WaitingTaskResult :=
        { subtaskId := subtaskId, result := dat, resultType := rt,
          lastSendingTrial := 0, delayTime := 0, ownerAddress := ownerAddress,
          ownerPort := ownerPort, alreadySending := false }
      .ok (true, { s with resultsToSend := aset subtaskId w s.resultsToSend })
  | _, _ => .error .assertionError

/-- `TaskServer.increaseComputingTrust` (lines 247-249): clamp the raw
trust modifier (the external `taskManager.getTrustMod(subtaskId)` value,
passed in as `trustModRaw`) into `[minTrust, maxTrust]` and forward it
to `client.increaseComputingTrust`. -/
def increaseComputingTrust (s : ServerState) (nodeId : String) (trustModRaw : ℤ) : List Event :=
  [.incComputingTrust nodeId (min (max trustModRaw s.minTrust) s.maxTrust)]

/-- `TaskServer.decreaseComputingTrust` (lines 252-254): same clamp,
forwarded to `client.decreaseComputingTrust`. -/
def decreaseComputingTrust (s : ServerState) (nodeId : String) (trustModRaw : ℤ) : List Event :=
  [.decComputingTrust nodeId (min (max trustModRaw s.minTrust) s.maxTrust)]

/-- `TaskServer.getReceiverForTaskVerificationResult` (lines 257-260). -/
def getReceiverForTaskVerificationResult (s : ServerState) (taskId : String) : Option String :=
  (alookup taskId s.activeTasks).map fun e => e.header.clientId

/-- `TaskServer.receiveTaskVerification` (lines 263-269).  When the task
id has no active entry, line 265 runs
`logger.warning("...").format(taskId)`: `logger.warning` returns `None`,
so the `.format` attribute access raises `AttributeError`.  Otherwise the
request counter is decremented and the entry deleted once the counter is
≤ 0 and the header is gone from the registry. -/
def receiveTaskVerification (s : ServerState) (taskId : String) : Outcome :=
  match alookup taskId s.activeTasks with
  | none => { state := s, events := [], err := some .attributeError }
  | some e =>
    let e' : ActiveTaskEntry := { e with requests := e.requests - 1 }
    if e'.requests ≤ 0 ∧ alookup taskId s.taskHeaders = none then
      { state := { s with activeTasks := aerase taskId s.activeTasks }, events := [], err := none }
    else
      { state := { s with activeTasks := aset taskId e' s.activeTasks }, events := [], err := none }

/-- `TaskServer.increaseRequesterTrust` (lines 272-275): look up the
requester id, consume the verification, then forward `maxTrust` to
`client.increaseRequesterTrust`. -/
def increaseRequesterTrust (s : ServerState) (taskId : String) : Outcome :=
  let nodeId := getReceiverForTaskVerificationResult s taskId
  (receiveTaskVerification s taskId).thenDo fun s1 =>
    { state := s1, events := [.incRequesterTrust nodeId s.maxTrust], err := none }

/-- `TaskServer.decreaseRequesterTrust` (lines 278-281). -/
def decreaseRequesterTrust (s : ServerState) (taskId : String) : Outcome :=
  let nodeId := getReceiverForTaskVerificationResult s taskId
  (receiveTaskVerification s taskId).thenDo fun s1 =>
    { state := s1, events := [.decRequesterTrust nodeId s.maxTrust], err := none }

/-- `TaskServer.subtaskRejected` (lines 220-225): when the subtask id is
pending verification, lower the requester's trust, evict the task
header and drop the pending entry; otherwise the guard fails and the
method returns with no effect. -/
def subtaskRejected (s : ServerState) (now : ℤ) (subtaskId : String) : Outcome :=
  match alookup subtaskId s.waitingForVerification with
  | none => { state := s, events := [], err := none }
  | some taskId =>
    (decreaseRequesterTrust s taskId).thenDo fun s1 =>
      let s2 := removeTaskHeader s1 now taskId
      { state := { s2 with waitingForVerification := aerase subtaskId s2.waitingForVerification },
        events := [], err := none }

/-- `TaskServer.subtaskAccepted` (lines 228-239).  `int(reward)` either
succeeds (`reward = some n`; `client.getReward(n)` runs) or raises
`ValueError`, which the method catches and logs (`reward = none`).
Then, when the subtask id is pending verification, the requester's trust
is raised and the pending entry dropped. -/
def subtaskAccepted (s : ServerState) (subtaskId : String) (reward : Option Int) : Outcome :=
  let payEvs : List Event :=
    match reward with
    | some n => [.getReward n]
    | none => [.wrongRewardLogged subtaskId]
  match alookup subtaskId s.waitingForVerification with
  | none => { state := s, events := payEvs, err := none }
  | some taskId =>
    let o :=
      (increaseRequesterTrust s taskId).thenDo fun s1 =>
        { state :=
            { s1 with waitingForVerification := aerase subtaskId s1.waitingForVerification },
          events := [], err := none }
    { o with events := payEvs ++ o.events }

/-- `TaskServer.__connectionForTaskRequestFailure` (lines 350-357): the
callback signals the task computer, then evaluates
`self.activeTaskHeaders`. `TaskServer.__init__` initialises
`activeTasks` but never `activeTaskHeaders`, and no assignment to that
attribute exists anywhere in the repository, so the membership test on
line 355 raises `AttributeError`; neither the counter decrement on line
356 nor the `removeTaskHeader` call on line 357 is reached. -/
def connectionForTaskRequestFailure (s : ServerState) (taskId : String) : Outcome :=
  { state := s, events := [.taskRequestRejected taskId "Connection failed"],
    err := some .attributeError }

/-- `TaskServer.__connectionForTaskResultFailure` (lines 375-381): stamp
the failed entry's last sending trial with the current time, raise its
delay to the configured `maxResultsSendingDelay` ceiling, and clear its
in-flight flag.  The callback receives the very `WaitingTaskResult`
object stored in `resultsToSend`, so the mutation lands on the queued
entry (embedded here by key). -/
def connectionForTaskResultFailure (s : ServerState) (now : ℤ) (subtaskId : String) :
    ServerState :=
  match alookup subtaskId s.resultsToSend with
  | none => s
  | some w =>
    let w' : WaitingTaskResult :=
      { w with
          lastSendingTrial := now
          delayTime := s.maxResultsSendingDelay
          alreadySending := false }
    { s with resultsToSend := aset subtaskId w' s.resultsToSend }

/-- One iteration of the loop in `TaskServer.__sendWaitingResults`
(lines 441-450), for the queue key `id`: when the entry is not already
being sent and more than `delayTime` has elapsed since its last trial,
mark it in flight and attempt a connection to the result owner. -/
def flushStep (now : ℤ) (acc : ServerState × List Event) (id : String) :
    ServerState × List Event :=
  match alookup id acc.1.resultsToSend with
  | none => acc
  | some w =>
    if w.alreadySending = false ∧ now - w.lastSendingTrial > w.delayTime then
      ({ acc.1 with resultsToSend := aset id { w with alreadySending := true } acc.1.resultsToSend },
       acc.2 ++ [.attemptResultSend id])
    else acc

/-- `TaskServer.__sendWaitingResults` (lines 441-450): walk the result
queue and start a delivery attempt for every eligible entry. -/
def sendWaitingResults (s : ServerState) (now : ℤ) : ServerState × List Event :=
  (keys s.resultsToSend).foldl (flushStep now) (s, [])

/-- The registry operations a claim's operation sequence ranges over,
each carrying the wall-clock instant at which it runs. -/
inductive Op
  | add (now : ℤ) (d : THDict)
  | remove (now : ℤ) (taskId : String)
  | tick (now : ℤ)
deriving DecidableEq

/-- The instant at which an operation runs. -/
def Op.time : Op → ℤ
  | .add now _ => now
  | .remove now _ => now
  | .tick now => now

/-- Apply one registry operation. -/
def applyOp (s : ServerState) : Op → ServerState
  | .add now d => (addTaskHeader s now d).2
  | .remove now taskId => removeTaskHeader s now taskId
  | .tick now => removeOldTasks s now

/-- Run a sequence of registry operations. -/
def runOps (s : ServerState) (ops : List Op) : ServerState := ops.foldl applyOp s

/-- The registry invariant of claim C5: every header present in the
registry has strictly positive ttl. -/
def headersPos (s : ServerState) : Prop :=
  ∀ p ∈ s.taskHeaders, 0 < (Prod.snd p).ttl

instance (s : ServerState) : Decidable (headersPos s) :=
  List.decidableBAll _ _

/-- An operation that never inserts a header with non-positive ttl. -/
def addsPositiveTtl : Op → Prop
  | .add _ d => 0 < d.ttl
  | .remove _ _ => True
  | .tick _ => True

instance : DecidablePred addsPositiveTtl := fun op =>
  match op with
  | .add _ d => inferInstanceAs (Decidable (0 < d.ttl))
  | .remove _ _ => inferInstanceAs (Decidable True)
  | .tick _ => inferInstanceAs (Decidable True)

/-- The cool-down invariant of claim C6 for task id `tid`: the removal
record is present with a timestamp no earlier than `r`, the header is
absent, and the cool-down window is `T`. -/
def cooldownInv (tid : String) (r T : ℤ) (s : ServerState) : Prop :=
  s.removedTaskTimeout = T ∧ alookup tid s.taskHeaders = none ∧
    ∃ r', alookup tid s.removedTasks = some r' ∧ r ≤ r'

/-- A concrete header used to instantiate the theorems: task "T1"
advertised by peer "OWNER", ttl 10, created (and last checked) at
instant 0. -/
def sampleHeader : TaskHeader :=
  { clientId := "OWNER", taskId := "T1", taskOwnerAddress := "addr", taskOwnerPort := 1,
    environment := "env", ttl := 10, subtaskTimeout := 5, lastChecking := 0 }

/-- A concrete server state: task "T1" known and supported, one
outstanding request for it, subtask "S1" pending verification against
it, and the configuration defaults of `TaskServer.__init__`
(`removedTaskTimeout = 240`, `maxTrust = 1`, `minTrust = 0`) plus a
result resend delay ceiling of 60. -/
def sampleState : ServerState :=
  { taskHeaders := [("T1", sampleHeader)], supportedTasks := ["T1"], removedTasks := [],
    activeTasks := [("T1", { header := sampleHeader, requests := 1 })],
    waitingForVerification := [("S1", "T1")], resultsToSend := [], ownTasks := [],
    removedTaskTimeout := 240, maxTrust := 1, minTrust := 0, maxResultsSendingDelay := 60 }

/-- A concrete incoming header dictionary advertising task "T1". -/
def sampleDict : THDict :=
  { id := "T1", clientId := "OWNER", address := "addr", port := 1, environment := "env",
    ttl := 10, subtaskTimeout := 5, supported := true }

/-- A concrete incoming header dictionary whose ttl is 0. -/
def sampleDictZeroTtl : THDict :=
  { id := "T2", clientId := "OWNER", address := "addr", port := 1, environment := "env",
    ttl := 0, subtaskTimeout := 5, supported := false }

/-- A concrete queued result for subtask "S1", freshly enqueued. -/
def sampleResult : WaitingTaskResult :=
  { subtaskId := "S1", result := "r", resultType := 0, lastSendingTrial := 0,
    delayTime := 0, ownerAddress := "addr", ownerPort := 1, alreadySending := false }

/-- `sampleState` with `sampleResult` waiting in the delivery queue. -/
def sampleStateQ : ServerState := { sampleState with resultsToSend := [("S1", sampleResult)] }

theorem alookup_aset_self (k : String) (v : α) (l : List (String × α)) :
    alookup k (aset k v l) = some v := by
  induction l with
  | nil => simp [aset, alookup]
  | cons p rest ih =>
    obtain ⟨a, b⟩ := p
    by_cases h : a = k
    · simp [aset, h, alookup]
    · simp [aset, h, alookup, ih]

theorem alookup_aset_ne {k k' : String} (h : k' ≠ k) (v : α) (l : List (String × α)) :
    alookup k' (aset k v l) = alookup k' l := by
  have h' : ¬ k = k' := fun hh => h hh.symm
  induction l with
  | nil => simp [aset, alookup, h']
  | cons p rest ih =>
    obtain ⟨a, b⟩ := p
    by_cases ha : a = k
    · subst ha
      simp [aset, alookup, h']
    · simp only [aset, if_neg ha, alookup]
      by_cases hb : a = k'
      · simp [hb]
      · simp [hb, ih]

theorem alookup_aerase_self (k : String) (l : List (String × α)) :
    alookup k (aerase k l) = none := by
  induction l with
  | nil => simp [aerase, alookup]
  | cons p rest ih =>
    obtain ⟨a, b⟩ := p
    by_cases h : a = k
    · simpa [aerase, h] using ih
    · simp [aerase, h, alookup, ih]

theorem alookup_aerase_ne {k k' : String} (h : k' ≠ k) (l : List (String × α)) :
    alookup k' (aerase k l) = alookup k' l := by
  induction l with
  | nil => simp [aerase]
  | cons p rest ih =>
    obtain ⟨a, b⟩ := p
    by_cases ha : a = k
    · subst ha
      have hb : ¬ a = k' := fun hh => h hh.symm
      simp [aerase, alookup, hb, ih]
    · simp only [aerase, if_neg ha, alookup]
      by_cases hb : a = k'
      · simp [hb]
      · simp [hb, ih]

theorem alookup_eq_none_iff (k : String) (l : List (String × α)) :
    alookup k l = none ↔ ∀ v, (k, v) ∉ l := by
  induction l with
  | nil => simp [alookup]
  | cons p rest ih =>
    obtain ⟨a, b⟩ := p
    by_cases h : a = k
    · subst h
      constructor
      · intro hc
        simp [alookup] at hc
      · intro hall
        exact absurd (List.mem_cons_self (a, b) rest) (hall b)
    · simp only [alookup, if_neg h, ih]
      constructor
      · intro hall v hv
        rcases List.mem_cons.mp hv with hv | hv
        · exact absurd (congrArg Prod.fst hv).symm h
        · exact hall v hv
      · intro hall v hv
        exact hall v (List.mem_cons_of_mem _ hv)

theorem mem_aset_ne {k k' : String} (h : k' ≠ k) (v w : α) (l : List (String × α)) :
    ((k', w) ∈ aset k v l) ↔ (k', w) ∈ l := by
  induction l with
  | nil =>
    simp only [aset, List.mem_singleton, List.not_mem_nil, iff_false]
    intro hm
    exact h (congrArg Prod.fst hm)
  | cons p rest ih =>
    obtain ⟨a, b⟩ := p
    by_cases ha : a = k
    · subst ha
      simp only [aset, if_pos rfl]
      constructor
      · intro hm
        rcases List.mem_cons.mp hm with hm | hm
        · exact absurd (congrArg Prod.fst hm) h
        · exact List.mem_cons_of_mem _ hm
      · intro hm
        rcases List.mem_cons.mp hm with hm | hm
        · exact absurd (congrArg Prod.fst hm) h
        · exact List.mem_cons_of_mem _ hm
    · simp only [aset, if_neg ha, List.mem_cons, ih]

theorem alookup_filter_none {p : String × α → Bool} {k : String} :
    ∀ l : List (String × α), (∀ v, (k, v) ∈ l → p (k, v) = false) →
    alookup k (l.filter p) = none := by
  intro l
  induction l with
  | nil =>
    intro _
    simp [alookup]
  | cons q rest ih =>
    intro h
    obtain ⟨a, b⟩ := q
    have hrest : ∀ v, (k, v) ∈ rest → p (k, v) = false :=
      fun v hv => h v (List.mem_cons_of_mem _ hv)
    by_cases ha : a = k
    · subst ha
      have hq : p (a, b) = false := h b (List.mem_cons_self _ _)
      simp only [List.filter_cons, hq, Bool.false_eq_true, if_false]
      exact ih hrest
    · cases hq : p (a, b) with
      | false =>
        simp only [List.filter_cons, hq, Bool.false_eq_true, if_false]
        exact ih hrest
      | true =>
        simp only [List.filter_cons, hq, if_pos, alookup, if_neg ha]
        exact ih hrest

theorem alookup_filter_of_mem {p : String × α → Bool} {k : String} {v : α} :
    ∀ l : List (String × α), alookup k l = some v → p (k, v) = true →
    alookup k (l.filter p) = some v := by
  intro l
  induction l with
  | nil =>
    intro hl _
    simp [alookup] at hl
  | cons q rest ih =>
    intro hl hp
    obtain ⟨a, b⟩ := q
    by_cases ha : a = k
    · subst ha
      have hv : b = v := by simpa [alookup] using hl
      subst hv
      simp [List.filter_cons, hp, alookup]
    · have hl' : alookup k rest = some v := by simpa [alookup, ha] using hl
      cases hq : p (a, b) with
      | false =>
        simp only [List.filter_cons, hq, Bool.false_eq_true, if_false]
        exact ih hl' hp
      | true =>
        simp only [List.filter_cons, hq, if_pos, alookup, if_neg ha]
        exact ih hl' hp

theorem subtaskRejected_noEntry (s : ServerState) (now : ℤ) (sub : String)
    (h : alookup sub s.waitingForVerification = none) :
    subtaskRejected s now sub = { state := s, events := [], err := none } := by
  simp only [subtaskRejected, h]

theorem subtaskAccepted_noEntry (s : ServerState) (sub : String) (r : Option Int)
    (h : alookup sub s.waitingForVerification = none) :
    subtaskAccepted s sub r =
      { state := s,
        events := match r with
                  | some n => [Event.getReward n]
                  | none => [Event.wrongRewardLogged sub],
        err := none } := by
  cases r <;> simp only [subtaskAccepted, h]

/-- C7: the delta that `increaseComputingTrust` / `decreaseComputingTrust`
forward to the reputation sink is the raw task trust-modifier clamped
into `[minTrust, maxTrust]`, hence always within those bounds, whatever
the raw value's magnitude or sign. -/
theorem computingTrust_delta_bounded (s : ServerState) (nodeId : String) (raw : ℤ)
    (hb : s.minTrust ≤ s.maxTrust) :
    (∃ d, increaseComputingTrust s nodeId raw = [Event.incComputingTrust nodeId d] ∧
        s.minTrust ≤ d ∧ d ≤ s.maxTrust) ∧
    (∃ d, decreaseComputingTrust s nodeId raw = [Event.decComputingTrust nodeId d] ∧
        s.minTrust ≤ d ∧ d ≤ s.maxTrust) := by
  refine ⟨⟨_, rfl, ?_, ?_⟩, ⟨_, rfl, ?_, ?_⟩⟩ <;>
    first
      | exact le_min (le_max_right _ _) hb
      | exact min_le_right _ _

theorem computingTrust_delta_bounded_witness :
    sampleState.minTrust ≤ sampleState.maxTrust ∧
    ((∃ d, increaseComputingTrust sampleState "N" 100 = [Event.incComputingTrust "N" d] ∧
        sampleState.minTrust ≤ d ∧ d ≤ sampleState.maxTrust) ∧
     (∃ d, decreaseComputingTrust sampleState "N" (-100)
          = [Event.decComputingTrust "N" d] ∧
        sampleState.minTrust ≤ d ∧ d ≤ sampleState.maxTrust)) :=
  ⟨by decide,
   (computingTrust_delta_bounded sampleState "N" 100 (by decide)).1,
   (computingTrust_delta_bounded sampleState "N" (-100) (by decide)).2⟩

/-- C2 (code bug): on a state that knows task "T1" and holds an active
entry with one outstanding request for it, the task-request connection
failure callback signals the task computer and then raises
`AttributeError` (it reads the never-assigned attribute
`activeTaskHeaders`), so the request counter is not decremented, the
header stays in the registry, and no removal record is made. -/
theorem connectionForTaskRequestFailure_raises :
    connectionForTaskRequestFailure sampleState "T1"
      = { state := sampleState,
          events := [Event.taskRequestRejected "T1" "Connection failed"],
          err := some PyError.attributeError } ∧
    alookup "T1" sampleState.taskHeaders = some sampleHeader ∧
    alookup "T1" sampleState.activeTasks = some { header := sampleHeader, requests := 1 } ∧
    alookup "T1" sampleState.removedTasks = none := by
  refine ⟨rfl, by decide, by decide, by decide⟩

/-- C3 counterexample: for a header dictionary whose task id "T1" is
already in the registry, `addTaskHeader` returns true (never false);
the claim's "returns false" is refuted (the no-mutation half holds). -/
theorem addTaskHeader_known_returns_true_cex :
    (alookup "T1" sampleState.taskHeaders).isSome = true ∧
    addTaskHeader sampleState 1 sampleDict = (true, sampleState) := by
  exact ⟨by decide, by decide⟩

theorem addTaskHeader_skip (s : ServerState) (now : ℤ) (d : THDict)
    (h : (alookup d.id s.taskHeaders).isSome = true ∨ d.id ∈ s.ownTasks ∨
      (alookup d.id s.removedTasks).isSome = true) :
    addTaskHeader s now d = (true, s) := by
  unfold addTaskHeader
  rcases h with h | h | h
  · rw [if_pos h]
  · by_cases h1 : (alookup d.id s.taskHeaders).isSome = true
    · rw [if_pos h1]
    · rw [if_neg h1, if_pos h]
  · by_cases h1 : (alookup d.id s.taskHeaders).isSome = true
    · rw [if_pos h1]
    · by_cases h2 : d.id ∈ s.ownTasks
      · rw [if_neg h1, if_pos h2]
      · rw [if_neg h1, if_neg h2, if_pos h]

/-- C3 (amended): when the incoming header's task id is already known,
or belongs to a locally owned task, or is inside the removal cool-down
window, `addTaskHeader` leaves every piece of state unchanged but
returns true, not false. -/
theorem addTaskHeader_reject_no_mutation (s : ServerState) (now : ℤ) (d : THDict)
    (h : (alookup d.id s.taskHeaders).isSome = true ∨ d.id ∈ s.ownTasks ∨
      (alookup d.id s.removedTasks).isSome = true) :
    addTaskHeader s now d = (true, s) :=
  addTaskHeader_skip s now d h

theorem addTaskHeader_reject_no_mutation_witness :
    (alookup "T1" sampleState.taskHeaders).isSome = true ∧
    addTaskHeader sampleState 1 sampleDict = (true, sampleState) :=
  ⟨by decide, addTaskHeader_reject_no_mutation sampleState 1 sampleDict (Or.inl (by decide))⟩

/-- C9: `sendResults` fails (the duplicate-guard assertion fires) for
every subtask id already queued, so a second send is never silently
merged; on a fresh subtask id it returns true having queued exactly one
entry, with `alreadySending = false`, `delayTime = 0`,
`lastSendingTrial = 0`, and every other queue key untouched. -/
theorem sendResults_enqueue_unique (s : ServerState) (sub dat : String) (rt : Nat)
    (addr : String) (port : Nat) :
    ((alookup sub s.resultsToSend).isSome = true →
        sendResults s sub (some dat) (some rt) addr port = .error .assertionError) ∧
    (alookup sub s.resultsToSend = none →
        ∃ s', sendResults s sub (some dat) (some rt) addr port = .ok (true, s') ∧
          alookup sub s'.resultsToSend = some
            { subtaskId := sub, result := dat, resultType := rt, lastSendingTrial := 0,
              delayTime := 0, ownerAddress := addr, ownerPort := port,
              alreadySending := false } ∧
          (∀ k, k ≠ sub → alookup k s'.resultsToSend = alookup k s.resultsToSend)) := by
  constructor
  · intro h
    simp only [sendResults]
    rw [if_pos h]
  · intro h
    have hc : ¬ (alookup sub s.resultsToSend).isSome = true := by rw [h]; simp
    let w : WaitingTaskResult :=
      { subtaskId := sub, result := dat, resultType := rt, lastSendingTrial := 0,
        delayTime := 0, ownerAddress := addr, ownerPort := port, alreadySending := false }
    refine ⟨{ s with resultsToSend := aset sub w s.resultsToSend }, ?_, ?_, ?_⟩
    · simp only [sendResults]
      rw [if_neg hc]
    · exact alookup_aset_self _ _ _
    · intro k hk
      exact alookup_aset_ne hk _ _

theorem sendResults_enqueue_unique_witness :
    ((alookup "S1" sampleStateQ.resultsToSend).isSome = true ∧
      sendResults sampleStateQ "S1" (some "x") (some 1) "a" 2 = .error .assertionError) ∧
    (alookup "S2" sampleStateQ.resultsToSend = none ∧
      ∃ s', sendResults sampleStateQ "S2" (some "x") (some 1) "a" 2 = .ok (true, s') ∧
        alookup "S2" s'.resultsToSend = some
          { subtaskId := "S2", result := "x", resultType := 1, lastSendingTrial := 0,
            delayTime := 0, ownerAddress := "a", ownerPort := 2,
            alreadySending := false } ∧
        (∀ k, k ≠ "S2" → alookup k s'.resultsToSend = alookup k sampleStateQ.resultsToSend)) :=
  ⟨⟨by decide, (sendResults_enqueue_unique sampleStateQ "S1" "x" 1 "a" 2).1 (by decide)⟩,
   ⟨by decide, (sendResults_enqueue_unique sampleStateQ "S2" "x" 1 "a" 2).2 (by decide)⟩⟩

/-- C1 counterexample: starting from a state where subtask "S1" is
pending verification for active task "T1", a first `subtaskRejected`
consumes the entry; the second `subtaskRejected` and a following
`subtaskAccepted` on "S1" both complete without raising anything (no
`AlreadyResolvedError` exists in the code) and leave the state
untouched, refuting "fails loudly on the second call". -/
theorem subtaskOutcome_secondCall_silent_cex :
    (subtaskRejected sampleState 3 "S1").err = none ∧
    alookup "S1" (subtaskRejected sampleState 3 "S1").state.waitingForVerification = none ∧
    subtaskRejected (subtaskRejected sampleState 3 "S1").state 4 "S1"
      = { state := (subtaskRejected sampleState 3 "S1").state, events := [], err := none } ∧
    (subtaskAccepted (subtaskRejected sampleState 3 "S1").state "S1" (some 7)).err = none ∧
    (subtaskAccepted (subtaskRejected sampleState 3 "S1").state "S1" (some 7)).state
      = (subtaskRejected sampleState 3 "S1").state := by
  refine ⟨by decide, by decide, by decide, by decide, by decide⟩

theorem subtaskRejected_active (s : ServerState) (now : ℤ) (sub tid : String)
    (e : ActiveTaskEntry)
    (h : alookup sub s.waitingForVerification = some tid)
    (ha : alookup tid s.activeTasks = some e) :
    (subtaskRejected s now sub).err = none ∧
    (subtaskRejected s now sub).events = [Event.decRequesterTrust (some e.header.clientId) s.maxTrust] ∧
    (subtaskRejected s now sub).state.waitingForVerification
      = aerase sub s.waitingForVerification ∧
    (subtaskRejected s now sub).state.taskHeaders = aerase tid s.taskHeaders ∧
    (subtaskRejected s now sub).state.removedTasks = aset tid now s.removedTasks ∧
    (subtaskRejected s now sub).state.supportedTasks = removeFirst tid s.supportedTasks := by
  simp only [subtaskRejected, h, decreaseRequesterTrust, getReceiverForTaskVerificationResult,
    receiveTaskVerification, ha, Option.map_some]
  by_cases hc : e.requests - 1 ≤ 0 ∧ alookup tid s.taskHeaders = none
  · rw [if_pos hc]
    simp [Outcome.thenDo, removeTaskHeader]
  · rw [if_neg hc]
    simp [Outcome.thenDo, removeTaskHeader]

theorem subtaskAccepted_active (s : ServerState) (sub tid : String)
    (e : ActiveTaskEntry) (r : Option Int)
    (h : alookup sub s.waitingForVerification = some tid)
    (ha : alookup tid s.activeTasks = some e) :
    (subtaskAccepted s sub r).err = none ∧
    (subtaskAccepted s sub r).events
      = (match r with
         | some n => [Event.getReward n]
         | none => [Event.wrongRewardLogged sub]) ++
        [Event.incRequesterTrust (some e.header.clientId) s.maxTrust] ∧
    (subtaskAccepted s sub r).state.waitingForVerification
      = aerase sub s.waitingForVerification ∧
    (subtaskAccepted s sub r).state.taskHeaders = s.taskHeaders ∧
    (subtaskAccepted s sub r).state.removedTasks = s.removedTasks ∧
    (subtaskAccepted s sub r).state.supportedTasks = s.supportedTasks := by
  simp only [subtaskAccepted, h, increaseRequesterTrust, getReceiverForTaskVerificationResult,
    receiveTaskVerification, ha, Option.map_some]
  by_cases hc : e.requests - 1 ≤ 0 ∧ alookup tid s.taskHeaders = none
  · rw [if_pos hc]
    simp [Outcome.thenDo]
  · rw [if_neg hc]
    simp [Outcome.thenDo]

/-- C1 (amended): the first successful `subtaskRejected` or
`subtaskAccepted` on a pending subtask id consumes its
PendingVerification entry; but a second call to either operation on the
same subtask id does not fail loudly: there is no
`AlreadyResolvedError`, the second call raises nothing, changes no
state, and (for `subtaskRejected`) produces no collaborator call at
all, while `subtaskAccepted` still attempts the reward step. -/
theorem subtaskVerification_consumed_once (s s₂ : ServerState) (now now' : ℤ)
    (sub tid : String) (e : ActiveTaskEntry) (r r' : Option Int)
    (h : alookup sub s.waitingForVerification = some tid)
    (ha : alookup tid s.activeTasks = some e)
    (h₂ : alookup sub s₂.waitingForVerification = none) :
    alookup sub (subtaskRejected s now sub).state.waitingForVerification = none ∧
    alookup sub (subtaskAccepted s sub r).state.waitingForVerification = none ∧
    subtaskRejected s₂ now' sub = { state := s₂, events := [], err := none } ∧
    (subtaskAccepted s₂ sub r').state = s₂ ∧
    (subtaskAccepted s₂ sub r').err = none := by
  refine ⟨?_, ?_, subtaskRejected_noEntry s₂ now' sub h₂, ?_, ?_⟩
  · rw [(subtaskRejected_active s now sub tid e h ha).2.2.1]
    exact alookup_aerase_self _ _
  · rw [(subtaskAccepted_active s sub tid e r h ha).2.2.1]
    exact alookup_aerase_self _ _
  · rw [subtaskAccepted_noEntry s₂ sub r' h₂]
  · rw [subtaskAccepted_noEntry s₂ sub r' h₂]

theorem subtaskVerification_consumed_once_witness :
    (alookup "S1" sampleState.waitingForVerification = some "T1" ∧
     alookup "T1" sampleState.activeTasks = some { header := sampleHeader, requests := 1 } ∧
     alookup "S1" (subtaskRejected sampleState 3 "S1").state.waitingForVerification = none) ∧
    (alookup "S1" (subtaskAccepted sampleState "S1" (some 7)).state.waitingForVerification
        = none ∧
     subtaskRejected (subtaskRejected sampleState 3 "S1").state 4 "S1"
        = { state := (subtaskRejected sampleState 3 "S1").state, events := [], err := none } ∧
     (subtaskAccepted (subtaskRejected sampleState 3 "S1").state "S1" (some 9)).state
        = (subtaskRejected sampleState 3 "S1").state) := by
  have hmain := subtaskVerification_consumed_once sampleState
    (subtaskRejected sampleState 3 "S1").state 3 4 "S1" "T1"
    { header := sampleHeader, requests := 1 } (some 7) (some 9)
    (by decide) (by decide) (by decide)
  exact ⟨⟨by decide, by decide, hmain.1⟩, hmain.2.1, hmain.2.2.1, hmain.2.2.2.1⟩

/-- C8: `subtaskAccepted` with a non-numeric reward (the `int(reward)`
conversion raises `ValueError`) only logs the bad reward — no
`getReward` payment call is made — yet still raises the requester's
trust and still consumes the pending verification entry. -/
theorem subtaskAccepted_invalidReward (s : ServerState) (sub tid : String)
    (e : ActiveTaskEntry)
    (h : alookup sub s.waitingForVerification = some tid)
    (ha : alookup tid s.activeTasks = some e) :
    (subtaskAccepted s sub none).err = none ∧
    (subtaskAccepted s sub none).events
      = [Event.wrongRewardLogged sub,
         Event.incRequesterTrust (some e.header.clientId) s.maxTrust] ∧
    (∀ n, Event.getReward n ∉ (subtaskAccepted s sub none).events) ∧
    alookup sub (subtaskAccepted s sub none).state.waitingForVerification = none := by
  obtain ⟨he, hev, hw, -⟩ := subtaskAccepted_active s sub tid e none h ha
  refine ⟨he, by simpa using hev, ?_, ?_⟩
  · intro n
    rw [show (subtaskAccepted s sub none).events
        = [Event.wrongRewardLogged sub,
           Event.incRequesterTrust (some e.header.clientId) s.maxTrust] from by simpa using hev]
    simp
  · rw [hw]
    exact alookup_aerase_self _ _

theorem subtaskAccepted_invalidReward_witness :
    (alookup "S1" sampleState.waitingForVerification = some "T1" ∧
     alookup "T1" sampleState.activeTasks = some { header := sampleHeader, requests := 1 }) ∧
    ((subtaskAccepted sampleState "S1" none).err = none ∧
     (subtaskAccepted sampleState "S1" none).events
        = [Event.wrongRewardLogged "S1", Event.incRequesterTrust (some "OWNER") 1] ∧
     alookup "S1" (subtaskAccepted sampleState "S1" none).state.waitingForVerification
        = none) := by
  have hmain := subtaskAccepted_invalidReward sampleState "S1" "T1"
    { header := sampleHeader, requests := 1 } (by decide) (by decide)
  exact ⟨⟨by decide, by decide⟩, hmain.1, by rw [hmain.2.1]; rfl, hmain.2.2.2⟩

/-- C10: on a pending subtask of an active task, `subtaskRejected`
evicts the task's header from the registry and records the removal
timestamp (starting the re-add cool-down), while `subtaskAccepted`
leaves the header registry, the removal records and the supported list
exactly as they were. -/
theorem verificationOutcome_registry_asymmetry (s : ServerState) (now : ℤ)
    (sub tid : String) (e : ActiveTaskEntry) (r : Option Int)
    (h : alookup sub s.waitingForVerification = some tid)
    (ha : alookup tid s.activeTasks = some e) :
    alookup tid (subtaskRejected s now sub).state.taskHeaders = none ∧
    alookup tid (subtaskRejected s now sub).state.removedTasks = some now ∧
    (subtaskAccepted s sub r).state.taskHeaders = s.taskHeaders ∧
    (subtaskAccepted s sub r).state.removedTasks = s.removedTasks ∧
    (subtaskAccepted s sub r).state.supportedTasks = s.supportedTasks := by
  obtain ⟨-, -, -, hth, hrm, -⟩ := subtaskRejected_active s now sub tid e h ha
  obtain ⟨-, -, -, hth2, hrm2, hsp2⟩ := subtaskAccepted_active s sub tid e r h ha
  refine ⟨?_, ?_, hth2, hrm2, hsp2⟩
  · rw [hth]
    exact alookup_aerase_self _ _
  · rw [hrm]
    exact alookup_aset_self _ _ _

theorem verificationOutcome_registry_asymmetry_witness :
    (alookup "S1" sampleState.waitingForVerification = some "T1" ∧
     alookup "T1" sampleState.activeTasks = some { header := sampleHeader, requests := 1 }) ∧
    (alookup "T1" (subtaskRejected sampleState 3 "S1").state.taskHeaders = none ∧
     alookup "T1" (subtaskRejected sampleState 3 "S1").state.removedTasks = some 3 ∧
     (subtaskAccepted sampleState "S1" (some 7)).state.taskHeaders
        = sampleState.taskHeaders) := by
  have hmain := verificationOutcome_registry_asymmetry sampleState 3 "S1" "T1"
    { header := sampleHeader, requests := 1 } (some 7) (by decide) (by decide)
  exact ⟨⟨by decide, by decide⟩, hmain.1, hmain.2.1, hmain.2.2.1⟩

theorem flushStep_no_attempt (now : ℤ) (sub k : String) (acc : ServerState × List Event)
    (hw : ∃ w', alookup sub acc.1.resultsToSend = some w' ∧
        (w'.alreadySending = true ∨ ¬ now - w'.lastSendingTrial > w'.delayTime))
    (hn : Event.attemptResultSend sub ∉ acc.2) :
    (∃ w', alookup sub (flushStep now acc k).1.resultsToSend = some w' ∧
        (w'.alreadySending = true ∨ ¬ now - w'.lastSendingTrial > w'.delayTime)) ∧
    Event.attemptResultSend sub ∉ (flushStep now acc k).2 := by
  obtain ⟨w', hw', hcond⟩ := hw
  by_cases hk : k = sub
  · subst hk
    have hcond' : ¬ (w'.alreadySending = false ∧ now - w'.lastSendingTrial > w'.delayTime) := by
      rintro ⟨h1, h2⟩
      rcases hcond with hc | hc
      · rw [hc] at h1
        cases h1
      · exact hc h2
    have hid : flushStep now acc k = acc := by
      simp only [flushStep, hw']
      rw [if_neg hcond']
    rw [hid]
    exact ⟨⟨w', hw', hcond⟩, hn⟩
  · have hne : sub ≠ k := fun hh => hk hh.symm
    cases hl : alookup k acc.1.resultsToSend with
    | none =>
      have hid : flushStep now acc k = acc := by
        simp only [flushStep, hl]
      rw [hid]
      exact ⟨⟨w', hw', hcond⟩, hn⟩
    | some w =>
      by_cases hc2 : w.alreadySending = false ∧ now - w.lastSendingTrial > w.delayTime
      · have hstep : flushStep now acc k = ({ acc.1 with resultsToSend := aset k { w with alreadySending := true } acc.1.resultsToSend }, acc.2 ++ [Event.attemptResultSend k]) := by
          simp only [flushStep, hl]
          rw [if_pos hc2]
        rw [hstep]
        refine ⟨⟨w', ?_, hcond⟩, ?_⟩
        · show alookup sub (aset k { w with alreadySending := true } acc.1.resultsToSend) = some w'
          rw [alookup_aset_ne hne]
          exact hw'
        · intro hmem
          rcases List.mem_append.mp hmem with hmem | hmem
          · exact hn hmem
          · have heq := List.mem_singleton.mp hmem
            injection heq with hsk
            exact hk hsk.symm
      · have hid : flushStep now acc k = acc := by
          simp only [flushStep, hl]
          rw [if_neg hc2]
        rw [hid]
        exact ⟨⟨w', hw', hcond⟩, hn⟩

theorem flushFold_no_attempt (now : ℤ) (sub : String) :
    ∀ (ks : List String) (acc : ServerState × List Event),
      (∃ w', alookup sub acc.1.resultsToSend = some w' ∧
          (w'.alreadySending = true ∨ ¬ now - w'.lastSendingTrial > w'.delayTime)) →
      Event.attemptResultSend sub ∉ acc.2 →
      Event.attemptResultSend sub ∉ (ks.foldl (flushStep now) acc).2 := by
  intro ks
  induction ks with
  | nil =>
    intro acc _ hn
    exact hn
  | cons k rest ih =>
    intro acc hw hn
    rw [List.foldl_cons]
    obtain ⟨hw2, hn2⟩ := flushStep_no_attempt now sub k acc hw hn
    exact ih _ hw2 hn2

/-- C4: the result-delivery flush only attempts entries that are not in
flight and whose elapsed time since the last trial exceeds the entry's
delay; when a delivery connection fails, the entry is kept (not
removed): its in-flight flag is cleared, its last trial stamped with
the failure time, and its delay raised to the configured
`maxResultsSendingDelay` ceiling, so a flush run before that delay has
elapsed makes no new attempt for the subtask. -/
theorem resultDelivery_retry_backoff (s : ServerState) (now : ℤ) (sub : String)
    (w : WaitingTaskResult) (h : alookup sub s.resultsToSend = some w) :
    ((w.alreadySending = true ∨ now - w.lastSendingTrial ≤ w.delayTime) →
        Event.attemptResultSend sub ∉ (sendWaitingResults s now).2) ∧
    alookup sub (connectionForTaskResultFailure s now sub).resultsToSend
      = some { w with
          lastSendingTrial := now
          delayTime := s.maxResultsSendingDelay
          alreadySending := false } ∧
    (∀ now', now' - now ≤ s.maxResultsSendingDelay →
        Event.attemptResultSend sub ∉
          (sendWaitingResults (connectionForTaskResultFailure s now sub) now').2) := by
  have hfail : connectionForTaskResultFailure s now sub = { s with resultsToSend := aset sub { w with lastSendingTrial := now, delayTime := s.maxResultsSendingDelay, alreadySending := false } s.resultsToSend } := by
    simp only [connectionForTaskResultFailure, h]
  refine ⟨?_, ?_, ?_⟩
  · intro hcond
    apply flushFold_no_attempt now sub _ _ _ (by simp)
    refine ⟨w, h, ?_⟩
    rcases hcond with hc | hc
    · exact Or.inl hc
    · exact Or.inr (not_lt.mpr hc)
  · rw [hfail]
    exact alookup_aset_self _ _ _
  · intro now' hd
    apply flushFold_no_attempt now' sub _ _ _ (by simp)
    refine ⟨_, by rw [hfail]; exact alookup_aset_self _ _ _, Or.inr (not_lt.mpr ?_)⟩
    exact hd

theorem resultDelivery_retry_backoff_witness :
    (alookup "S1" sampleStateQ.resultsToSend = some sampleResult ∧
      alookup "S1" (connectionForTaskResultFailure sampleStateQ 5 "S1").resultsToSend
        = some { sampleResult with
            lastSendingTrial := 5
            delayTime := 60
            alreadySending := false } ∧
      Event.attemptResultSend "S1" ∉
        (sendWaitingResults (connectionForTaskResultFailure sampleStateQ 5 "S1") 65).2) ∧
    Event.attemptResultSend "S1" ∉ (sendWaitingResults (sendWaitingResults sampleStateQ 5).1 65).2 := by
  have h1 := resultDelivery_retry_backoff sampleStateQ 5 "S1" sampleResult (by decide)
  have h2 := resultDelivery_retry_backoff (sendWaitingResults sampleStateQ 5).1 65 "S1"
    { sampleResult with alreadySending := true } (by decide)
  exact ⟨⟨by decide, h1.2.1, h1.2.2 65 (by decide)⟩, h2.1 (Or.inl rfl)⟩

theorem alookup_some_mem_keys {k : String} {v : α} :
    ∀ {l : List (String × α)}, alookup k l = some v → k ∈ keys l := by
  intro l
  induction l with
  | nil => intro h; simp [alookup] at h
  | cons p rest ih =>
    intro h
    obtain ⟨a, b⟩ := p
    by_cases ha : a = k
    · simp [keys, ha]
    · have := ih (by simpa [alookup, ha] using h)
      simp only [keys, List.map_cons, List.mem_cons]
      exact Or.inr (by simpa [keys] using this)

theorem alookup_none_not_mem_keys {k : String} :
    ∀ {l : List (String × α)}, alookup k l = none → k ∉ keys l := by
  intro l
  induction l with
  | nil => intro _; simp [keys]
  | cons p rest ih =>
    intro h
    obtain ⟨a, b⟩ := p
    by_cases ha : a = k
    · simp [alookup, ha] at h
    · have := ih (by simpa [alookup, ha] using h)
      simp only [keys, List.map_cons, List.mem_cons]
      rintro (hk | hk)
      · exact ha hk.symm
      · exact this (by simpa [keys] using hk)

theorem expireStep_removedTaskTimeout (now : ℤ) (s : ServerState) (k : String) :
    (expireStep now s k).removedTaskTimeout = s.removedTaskTimeout := by
  cases hl : alookup k s.taskHeaders with
  | none => simp only [expireStep, hl]
  | some t =>
    simp only [expireStep, hl]
    split <;> rfl

theorem expireStep_ownTasks (now : ℤ) (s : ServerState) (k : String) :
    (expireStep now s k).ownTasks = s.ownTasks := by
  cases hl : alookup k s.taskHeaders with
  | none => simp only [expireStep, hl]
  | some t =>
    simp only [expireStep, hl]
    split <;> rfl

theorem expireStep_taskHeaders_ne (now : ℤ) (s : ServerState) (k id : String) (hne : id ≠ k) :
    alookup id (expireStep now s k).taskHeaders = alookup id s.taskHeaders := by
  cases hl : alookup k s.taskHeaders with
  | none => simp only [expireStep, hl]
  | some t =>
    simp only [expireStep, hl]
    split
    · show alookup id (aerase k (aset k _ s.taskHeaders)) = _
      rw [alookup_aerase_ne hne, alookup_aset_ne hne]
    · show alookup id (aset k _ s.taskHeaders) = _
      rw [alookup_aset_ne hne]

theorem expireStep_removedTasks_ne (now : ℤ) (s : ServerState) (k tid : String)
    (hne : tid ≠ k) :
    alookup tid (expireStep now s k).removedTasks = alookup tid s.removedTasks ∧
    (∀ v, ((tid, v) ∈ (expireStep now s k).removedTasks ↔ (tid, v) ∈ s.removedTasks)) := by
  cases hl : alookup k s.taskHeaders with
  | none => simp [expireStep, hl]
  | some t =>
    simp only [expireStep, hl]
    split
    · constructor
      · show alookup tid (aset k now s.removedTasks) = _
        rw [alookup_aset_ne hne]
      · intro v
        show (tid, v) ∈ aset k now s.removedTasks ↔ _
        exact mem_aset_ne hne _ _ _
    · exact ⟨rfl, fun v => Iff.rfl⟩

theorem foldExpire_frame (now : ℤ) (tid : String) :
    ∀ (ks : List String) (s : ServerState), (∀ k ∈ ks, k ≠ tid) →
      alookup tid (ks.foldl (expireStep now) s).taskHeaders = alookup tid s.taskHeaders ∧
      alookup tid (ks.foldl (expireStep now) s).removedTasks = alookup tid s.removedTasks ∧
      (ks.foldl (expireStep now) s).removedTaskTimeout = s.removedTaskTimeout ∧
      (ks.foldl (expireStep now) s).ownTasks = s.ownTasks ∧
      (∀ v, ((tid, v) ∈ (ks.foldl (expireStep now) s).removedTasks ↔
          (tid, v) ∈ s.removedTasks)) := by
  intro ks
  induction ks with
  | nil =>
    intro s _
    exact ⟨rfl, rfl, rfl, rfl, fun v => Iff.rfl⟩
  | cons k rest ih =>
    intro s hk
    have hkt : k ≠ tid := hk k (List.mem_cons_self _ _)
    have htk : tid ≠ k := fun hh => hkt hh.symm
    have hrest : ∀ k' ∈ rest, k' ≠ tid := fun k' hk' => hk k' (List.mem_cons_of_mem _ hk')
    rw [List.foldl_cons]
    obtain ⟨ih1, ih2, ih3, ih4, ih5⟩ := ih (expireStep now s k) hrest
    obtain ⟨hr1, hr2⟩ := expireStep_removedTasks_ne now s k tid htk
    refine ⟨?_, ?_, ?_, ?_, ?_⟩
    · rw [ih1, expireStep_taskHeaders_ne now s k tid htk]
    · rw [ih2, hr1]
    · rw [ih3, expireStep_removedTaskTimeout]
    · rw [ih4, expireStep_ownTasks]
    · intro v
      rw [ih5 v, hr2 v]

theorem foldExpire_at_key (now : ℤ) :
    ∀ (ks : List String) (s : ServerState) (id : String) (t : TaskHeader),
      ks.Nodup → id ∈ ks → alookup id s.taskHeaders = some t →
      ((t.ttl - (now - t.lastChecking) ≤ 0 →
          alookup id (ks.foldl (expireStep now) s).taskHeaders = none) ∧
       (0 < t.ttl - (now - t.lastChecking) →
          alookup id (ks.foldl (expireStep now) s).taskHeaders
            = some { t with ttl := t.ttl - (now - t.lastChecking), lastChecking := now })) := by
  intro ks
  induction ks with
  | nil =>
    intro s id t _ hmem
    exact absurd hmem (List.not_mem_nil id)
  | cons k rest ih =>
    intro s id t hnd hmem ht
    obtain ⟨hknr, hndr⟩ := List.nodup_cons.mp hnd
    rw [List.foldl_cons]
    by_cases hk : k = id
    · subst hk
      have hrest : ∀ k' ∈ rest, k' ≠ k := fun k' hk' hkk => hknr (hkk ▸ hk')
      constructor
      · intro hle
        have hstep : alookup k (expireStep now s k).taskHeaders = none := by
          simp only [expireStep, ht]
          rw [if_pos (by simpa using hle)]
          show alookup k (aerase k (aset k _ s.taskHeaders)) = none
          exact alookup_aerase_self _ _
        rw [(foldExpire_frame now k rest (expireStep now s k) hrest).1, hstep]
      · intro hgt
        have hstep : alookup k (expireStep now s k).taskHeaders
            = some { t with ttl := t.ttl - (now - t.lastChecking), lastChecking := now } := by
          simp only [expireStep, ht]
          rw [if_neg (by simpa using not_le.mpr hgt)]
          show alookup k (aset k _ s.taskHeaders) = _
          exact alookup_aset_self _ _ _
        rw [(foldExpire_frame now k rest (expireStep now s k) hrest).1, hstep]
    · have hne : id ≠ k := fun hh => hk hh.symm
      have hmem' : id ∈ rest := by
        rcases List.mem_cons.mp hmem with hmem | hmem
        · exact absurd hmem.symm hk
        · exact hmem
      have ht' : alookup id (expireStep now s k).taskHeaders = some t := by
        rw [expireStep_taskHeaders_ne now s k id hne]
        exact ht
      exact ih (expireStep now s k) id t hndr hmem' ht'

theorem mem_aerase {x : String × α} {k : String} :
    ∀ {l : List (String × α)}, x ∈ aerase k l → x ∈ l ∧ x.1 ≠ k := by
  intro l
  induction l with
  | nil => intro h; simp [aerase] at h
  | cons p rest ih =>
    intro h
    obtain ⟨a, b⟩ := p
    by_cases ha : a = k
    · subst ha
      rw [show aerase a ((a, b) :: rest) = aerase a rest from by simp [aerase]] at h
      obtain ⟨h1, h2⟩ := ih h
      exact ⟨List.mem_cons_of_mem _ h1, h2⟩
    · rw [show aerase k ((a, b) :: rest) = (a, b) :: aerase k rest from by simp [aerase, ha]] at h
      rcases List.mem_cons.mp h with h | h
      · refine ⟨by rw [h]; exact List.mem_cons_self _ _, ?_⟩
        rw [h]
        exact ha
      · obtain ⟨h1, h2⟩ := ih h
        exact ⟨List.mem_cons_of_mem _ h1, h2⟩

theorem mem_aset_elim {x : String × α} {k : String} {v : α} :
    ∀ {l : List (String × α)}, x ∈ aset k v l → x = (k, v) ∨ x ∈ l := by
  intro l
  induction l with
  | nil => intro h; simp [aset] at h; exact Or.inl h
  | cons p rest ih =>
    intro h
    obtain ⟨a, b⟩ := p
    by_cases ha : a = k
    · rw [show aset k v ((a, b) :: rest) = (k, v) :: rest from by simp [aset, ha]] at h
      rcases List.mem_cons.mp h with h | h
      · exact Or.inl h
      · exact Or.inr (List.mem_cons_of_mem _ h)
    · rw [show aset k v ((a, b) :: rest) = (a, b) :: aset k v rest from by simp [aset, ha]] at h
      rcases List.mem_cons.mp h with h | h
      · exact Or.inr (by rw [h]; exact List.mem_cons_self _ _)
      · rcases ih h with h | h
        · exact Or.inl h
        · exact Or.inr (List.mem_cons_of_mem _ h)

theorem expireStep_taskHeaders_eq (now : ℤ) (s : ServerState) (k : String) (t : TaskHeader)
    (hl : alookup k s.taskHeaders = some t) :
    (expireStep now s k).taskHeaders =
      (if t.ttl - (now - t.lastChecking) ≤ 0
       then aerase k (aset k { t with ttl := t.ttl - (now - t.lastChecking), lastChecking := now } s.taskHeaders)
       else aset k { t with ttl := t.ttl - (now - t.lastChecking), lastChecking := now } s.taskHeaders) := by
  simp only [expireStep, hl]
  split
  · rfl
  · rfl

theorem expireStep_headersPos (now : ℤ) (s : ServerState) (k : String)
    (hp : headersPos s) : headersPos (expireStep now s k) := by
  intro p hmem
  cases hlk : alookup k s.taskHeaders with
  | none =>
    rw [show expireStep now s k = s from by simp only [expireStep, hlk]] at hmem
    exact hp p hmem
  | some t =>
    rw [show (expireStep now s k).taskHeaders = _ from expireStep_taskHeaders_eq now s k t hlk]
      at hmem
    by_cases hc : t.ttl - (now - t.lastChecking) ≤ 0
    · rw [if_pos hc] at hmem
      obtain ⟨hmem1, hne⟩ := mem_aerase hmem
      rcases mem_aset_elim hmem1 with heq | hmem2
      · exact absurd (by rw [heq]) hne
      · exact hp p hmem2
    · rw [if_neg hc] at hmem
      rcases mem_aset_elim hmem with heq | hmem2
      · rw [heq]
        exact lt_of_not_le hc
      · exact hp p hmem2

theorem foldExpire_headersPos (now : ℤ) :
    ∀ (ks : List String) (s : ServerState), headersPos s →
      headersPos (ks.foldl (expireStep now) s) := by
  intro ks
  induction ks with
  | nil => intro s hp; exact hp
  | cons k rest ih =>
    intro s hp
    rw [List.foldl_cons]
    exact ih _ (expireStep_headersPos now s k hp)

theorem removeOldTasks_headersPos (s : ServerState) (now : ℤ) (hp : headersPos s) :
    headersPos (removeOldTasks s now) := by
  intro p hmem
  exact foldExpire_headersPos now (keys s.taskHeaders) s hp p hmem

/-- The header value `addTaskHeader` builds from the dictionary at
instant `now` (the body of `TaskHeader(...)` on line 139). -/
def headerOfDict (d : THDict) (now : ℤ) : TaskHeader :=
  { clientId := d.clientId, taskId := d.id, taskOwnerAddress := d.address,
    taskOwnerPort := d.port, environment := d.environment, ttl := d.ttl,
    subtaskTimeout := d.subtaskTimeout, lastChecking := now }

theorem addTaskHeader_returns_true (s : ServerState) (now : ℤ) (d : THDict) :
    (addTaskHeader s now d).1 = true := by
  unfold addTaskHeader
  split_ifs <;> rfl

theorem addTaskHeader_insert_taskHeaders (s : ServerState) (now : ℤ) (d : THDict)
    (h1 : alookup d.id s.taskHeaders = none) (h2 : d.id ∉ s.ownTasks)
    (h3 : alookup d.id s.removedTasks = none) :
    (addTaskHeader s now d).2.taskHeaders = aset d.id (headerOfDict d now) s.taskHeaders := by
  unfold addTaskHeader
  rw [if_neg (by rw [h1]; simp), if_neg h2, if_neg (by rw [h3]; simp)]
  cases hs : d.supported <;> simp [hs, headerOfDict]

theorem addTaskHeader_frame (s : ServerState) (now : ℤ) (d : THDict) :
    (addTaskHeader s now d).2.removedTasks = s.removedTasks ∧
    (addTaskHeader s now d).2.removedTaskTimeout = s.removedTaskTimeout ∧
    (addTaskHeader s now d).2.ownTasks = s.ownTasks := by
  unfold addTaskHeader
  split_ifs <;> exact ⟨rfl, rfl, rfl⟩

theorem addTaskHeader_taskHeaders_ne (s : ServerState) (now : ℤ) (d : THDict)
    (k : String) (hk : k ≠ d.id) :
    alookup k (addTaskHeader s now d).2.taskHeaders = alookup k s.taskHeaders := by
  unfold addTaskHeader
  split_ifs <;>
    first
      | rfl
      | (show alookup k (aset d.id _ s.taskHeaders) = _
         rw [alookup_aset_ne hk])

theorem addTaskHeader_headersPos (s : ServerState) (now : ℤ) (d : THDict)
    (hd : 0 < d.ttl) (hp : headersPos s) : headersPos (addTaskHeader s now d).2 := by
  intro p hmem
  by_cases hg : (alookup d.id s.taskHeaders).isSome = true ∨ d.id ∈ s.ownTasks ∨
      (alookup d.id s.removedTasks).isSome = true
  · rw [addTaskHeader_skip s now d hg] at hmem
    exact hp p hmem
  · push_neg at hg
    obtain ⟨hg1, hg2, hg3⟩ := hg
    have h1 : alookup d.id s.taskHeaders = none := by
      cases hx : alookup d.id s.taskHeaders with
      | none => rfl
      | some t => rw [hx] at hg1; simp at hg1
    have h3 : alookup d.id s.removedTasks = none := by
      cases hx : alookup d.id s.removedTasks with
      | none => rfl
      | some t => rw [hx] at hg3; simp at hg3
    rw [addTaskHeader_insert_taskHeaders s now d h1 hg2 h3] at hmem
    rcases mem_aset_elim hmem with heq | hmem2
    · rw [heq]
      exact hd
    · exact hp p hmem2

theorem removeTaskHeader_headersPos (s : ServerState) (now : ℤ) (tid : String)
    (hp : headersPos s) : headersPos (removeTaskHeader s now tid) := by
  intro p hmem
  rw [show (removeTaskHeader s now tid).taskHeaders = aerase tid s.taskHeaders from rfl] at hmem
  exact hp p (mem_aerase hmem).1

theorem runOps_headersPos (ops : List Op) :
    ∀ s : ServerState, headersPos s → (∀ op ∈ ops, addsPositiveTtl op) →
      headersPos (runOps s ops) := by
  induction ops with
  | nil => intro s hp _; exact hp
  | cons op rest ih =>
    intro s hp hops
    have hop : addsPositiveTtl op := hops op (List.mem_cons_self _ _)
    have hrest : ∀ op' ∈ rest, addsPositiveTtl op' :=
      fun op' h' => hops op' (List.mem_cons_of_mem _ h')
    show headersPos (rest.foldl applyOp (applyOp s op))
    apply ih _ _ hrest
    cases op with
    | add now d => exact addTaskHeader_headersPos s now d hop hp
    | remove now tid => exact removeTaskHeader_headersPos s now tid hp
    | tick now => exact removeOldTasks_headersPos s now hp

/-- C5 counterexample: `addTaskHeader` performs no validation of the
incoming ttl, so a single `add` of a dictionary whose ttl is 0 leaves a
header with ttl ≤ 0 sitting in the registry, refuting "every header
present in the registry has ttl > 0" over arbitrary add/remove/tick
sequences. -/
theorem registry_ttl_invariant_cex :
    ∃ t, alookup "T2" (runOps sampleState [Op.add 1 sampleDictZeroTtl]).taskHeaders = some t
      ∧ t.ttl ≤ 0 :=
  ⟨headerOfDict sampleDictZeroTtl 1, by decide, by decide⟩

/-- C5 (amended): provided every header inserted by an `add` carries a
positive ttl, every header present in the registry after any sequence
of add / remove / tick operations has ttl > 0; and `tick`
(`__removeOldTasks`) decrements each registered header's ttl by the
wall-clock time elapsed since its last check, removing exactly those
headers whose new ttl reaches ≤ 0 and restamping the others. -/
theorem registry_ttl_invariant (s : ServerState) (ops : List Op) (now : ℤ)
    (id : String) (t : TaskHeader)
    (hpos : headersPos s) (hops : ∀ op ∈ ops, addsPositiveTtl op) :
    headersPos (runOps s ops) ∧
    ((keys s.taskHeaders).Nodup → alookup id s.taskHeaders = some t →
      ((t.ttl - (now - t.lastChecking) ≤ 0 →
          alookup id (removeOldTasks s now).taskHeaders = none) ∧
       (0 < t.ttl - (now - t.lastChecking) →
          alookup id (removeOldTasks s now).taskHeaders
            = some { t with ttl := t.ttl - (now - t.lastChecking), lastChecking := now }))) := by
  refine ⟨runOps_headersPos ops s hpos hops, ?_⟩
  intro hnd ht
  exact foldExpire_at_key now (keys s.taskHeaders) s id t hnd (alookup_some_mem_keys ht) ht

theorem registry_ttl_invariant_witness :
    (headersPos sampleState ∧
      (∀ op ∈ [Op.add 2 sampleDict, Op.remove 3 "T1", Op.tick 4], addsPositiveTtl op) ∧
      (keys sampleState.taskHeaders).Nodup ∧
      alookup "T1" sampleState.taskHeaders = some sampleHeader) ∧
    (headersPos (runOps sampleState [Op.add 2 sampleDict, Op.remove 3 "T1", Op.tick 4]) ∧
      alookup "T1" (removeOldTasks sampleState 11).taskHeaders = none ∧
      alookup "T1" (removeOldTasks sampleState 4).taskHeaders
        = some { sampleHeader with ttl := 6, lastChecking := 4 }) := by
  have h1 := registry_ttl_invariant sampleState
    [Op.add 2 sampleDict, Op.remove 3 "T1", Op.tick 4] 11 "T1" sampleHeader
    (by decide) (by decide)
  have h2 := registry_ttl_invariant sampleState
    [Op.add 2 sampleDict, Op.remove 3 "T1", Op.tick 4] 4 "T1" sampleHeader
    (by decide) (by decide)
  refine ⟨⟨by decide, by decide, by decide, by decide⟩, h1.1, ?_, ?_⟩
  · exact (h1.2 (by decide) (by decide)).1 (by decide)
  · rw [(h2.2 (by decide) (by decide)).2 (by decide)]
    decide

theorem cooldownInv_step (tid : String) (r T : ℤ) (s : ServerState) (op : Op)
    (hJ : cooldownInv tid r T s) (ht1 : r ≤ Op.time op) (ht2 : Op.time op ≤ r + T) :
    cooldownInv tid r T (applyOp s op) := by
  obtain ⟨hT, hhdr, r', hrec, hrr⟩ := hJ
  cases op with
  | add now d =>
    show cooldownInv tid r T (addTaskHeader s now d).2
    by_cases hd : d.id = tid
    · rw [addTaskHeader_skip s now d (Or.inr (Or.inr (by rw [hd, hrec]; rfl)))]
      exact ⟨hT, hhdr, r', hrec, hrr⟩
    · refine ⟨?_, ?_, r', ?_, hrr⟩
      · rw [(addTaskHeader_frame s now d).2.1, hT]
      · rw [addTaskHeader_taskHeaders_ne s now d tid (fun hh => hd hh.symm)]
        exact hhdr
      · rw [(addTaskHeader_frame s now d).1]
        exact hrec
  | remove now tid' =>
    show cooldownInv tid r T (removeTaskHeader s now tid')
    by_cases hd : tid' = tid
    · subst hd
      refine ⟨hT, ?_, now, ?_, ht1⟩
      · show alookup tid' (aerase tid' s.taskHeaders) = none
        exact alookup_aerase_self _ _
      · show alookup tid' (aset tid' now s.removedTasks) = some now
        exact alookup_aset_self _ _ _
    · refine ⟨hT, ?_, r', ?_, hrr⟩
      · show alookup tid (aerase tid' s.taskHeaders) = none
        rw [alookup_aerase_ne (fun hh => hd hh.symm)]
        exact hhdr
      · show alookup tid (aset tid' now s.removedTasks) = some r'
        rw [alookup_aset_ne (fun hh => hd hh.symm)]
        exact hrec
  | tick now =>
    show cooldownInv tid r T (removeOldTasks s now)
    have hnow2 : now ≤ r + T := ht2
    have hknot : ∀ k ∈ keys s.taskHeaders, k ≠ tid := by
      intro k hk heq
      exact alookup_none_not_mem_keys hhdr (heq ▸ hk)
    obtain ⟨hf1, hf2, hf3, hf4, hf5⟩ := foldExpire_frame now tid (keys s.taskHeaders) s hknot
    refine ⟨?_, ?_, r', ?_, hrr⟩
    · show ((keys s.taskHeaders).foldl (expireStep now) s).removedTaskTimeout = T
      rw [hf3, hT]
    · show alookup tid ((keys s.taskHeaders).foldl (expireStep now) s).taskHeaders = none
      rw [hf1]
      exact hhdr
    · apply alookup_filter_of_mem
      · show alookup tid ((keys s.taskHeaders).foldl (expireStep now) s).removedTasks = some r'
        rw [hf2]
        exact hrec
      · show decide (now - r' ≤ ((keys s.taskHeaders).foldl (expireStep now) s).removedTaskTimeout)
            = true
        rw [hf3, hT]
        exact decide_eq_true (by omega)

theorem cooldownInv_runOps (tid : String) (r T : ℤ) :
    ∀ (ops : List Op) (s : ServerState), cooldownInv tid r T s →
      (∀ op ∈ ops, r ≤ Op.time op ∧ Op.time op ≤ r + T) →
      cooldownInv tid r T (runOps s ops) := by
  intro ops
  induction ops with
  | nil => intro s hJ _; exact hJ
  | cons op rest ih =>
    intro s hJ hops
    have hop := hops op (List.mem_cons_self _ _)
    show cooldownInv tid r T (rest.foldl applyOp (applyOp s op))
    exact ih (applyOp s op) (cooldownInv_step tid r T s op hJ hop.1 hop.2)
      (fun op' h' => hops op' (List.mem_cons_of_mem _ h'))

theorem removeOldTasks_purge (s : ServerState) (now : ℤ) (tid : String)
    (hhdr : alookup tid s.taskHeaders = none)
    (hall : ∀ v, (tid, v) ∈ s.removedTasks → s.removedTaskTimeout < now - v) :
    alookup tid (removeOldTasks s now).removedTasks = none ∧
    alookup tid (removeOldTasks s now).taskHeaders = none ∧
    (removeOldTasks s now).ownTasks = s.ownTasks := by
  have hknot : ∀ k ∈ keys s.taskHeaders, k ≠ tid := by
    intro k hk heq
    exact alookup_none_not_mem_keys hhdr (heq ▸ hk)
  obtain ⟨hf1, hf2, hf3, hf4, hf5⟩ := foldExpire_frame now tid (keys s.taskHeaders) s hknot
  refine ⟨?_, ?_, ?_⟩
  · apply alookup_filter_none
    intro v hv
    have hv' : (tid, v) ∈ s.removedTasks := (hf5 v).mp hv
    show decide (now - v ≤ ((keys s.taskHeaders).foldl (expireStep now) s).removedTaskTimeout)
        = false
    rw [hf3]
    exact decide_eq_false (by have := hall v hv'; omega)
  · show alookup tid ((keys s.taskHeaders).foldl (expireStep now) s).taskHeaders = none
    rw [hf1]
    exact hhdr
  · show ((keys s.taskHeaders).foldl (expireStep now) s).ownTasks = s.ownTasks
    exact hf4

/-- C6: once a task id has a removal record at time r, it cannot come
back into the registry while every subsequent add / remove / tick runs
inside the cool-down window [r, r + removedTaskTimeout]; and a tick at
an instant past the window purges the stale removal record, after which
an `add` for the task id succeeds and registers the header. -/
theorem removedTask_cooldown (s : ServerState) (ops : List Op) (tid : String) (r : ℤ)
    (hrec : alookup tid s.removedTasks = some r)
    (hhdr : alookup tid s.taskHeaders = none)
    (hops : ∀ op ∈ ops, r ≤ Op.time op ∧ Op.time op ≤ r + s.removedTaskTimeout) :
    (alookup tid (runOps s ops).taskHeaders = none ∧
     ∃ r', alookup tid (runOps s ops).removedTasks = some r' ∧ r ≤ r') ∧
    (∀ now now' d, (∀ v, (tid, v) ∈ s.removedTasks → s.removedTaskTimeout < now - v) →
        d.id = tid → tid ∉ s.ownTasks →
        alookup tid (removeOldTasks s now).removedTasks = none ∧
        (addTaskHeader (removeOldTasks s now) now' d).1 = true ∧
        alookup tid (addTaskHeader (removeOldTasks s now) now' d).2.taskHeaders
          = some (headerOfDict d now')) := by
  constructor
  · have hJ := cooldownInv_runOps tid r s.removedTaskTimeout ops s
      ⟨rfl, hhdr, r, hrec, le_refl r⟩ hops
    obtain ⟨-, hh, r', hr', hrr⟩ := hJ
    exact ⟨hh, r', hr', hrr⟩
  · intro now now' d hall hd hown
    obtain ⟨hp1, hp2, hp3⟩ := removeOldTasks_purge s now tid hhdr hall
    subst hd
    refine ⟨hp1, addTaskHeader_returns_true _ _ _, ?_⟩
    have hins := addTaskHeader_insert_taskHeaders (removeOldTasks s now) now' d hp2
      (by rw [hp3]; exact hown) hp1
    rw [hins]
    exact alookup_aset_self _ _ _

theorem removedTask_cooldown_witness :
    (alookup "T1" (removeOldTasks sampleState 11).removedTasks = some 11 ∧
     alookup "T1" (removeOldTasks sampleState 11).taskHeaders = none) ∧
    (alookup "T1" (runOps (removeOldTasks sampleState 11) [Op.add 12 sampleDict]).taskHeaders
        = none ∧
     alookup "T1" (removeOldTasks (removeOldTasks sampleState 11) 252).removedTasks = none ∧
     (addTaskHeader (removeOldTasks (removeOldTasks sampleState 11) 252) 253 sampleDict).1
        = true ∧
     alookup "T1" (addTaskHeader (removeOldTasks (removeOldTasks sampleState 11) 252) 253
        sampleDict).2.taskHeaders = some (headerOfDict sampleDict 253)) := by
  have hmain := removedTask_cooldown (removeOldTasks sampleState 11) [Op.add 12 sampleDict]
    "T1" 11 (by decide) (by decide) (by decide)
  have hpart2 := hmain.2 252 253 sampleDict
    (by
      intro v hv
      have hlist : (removeOldTasks sampleState 11).removedTasks = [("T1", 11)] := by decide
      rw [hlist] at hv
      simp at hv
      subst hv
      decide)
    (by decide) (by decide)
  exact ⟨⟨by decide, by decide⟩, hmain.1.1, hpart2.1, hpart2.2.1, hpart2.2.2⟩

end Golem
